import Mathlib

/-!
Shallow embedding of the VE.Direct frame decoder from
`bin/user/vedirect.py` (class `VEDirect`, method `input`).

Modelling choices:
* a byte is a natural number (the Python code reads one-character
  strings and applies `ord`, so comparisons against `'\r'`, `'\n'`,
  `'\t'`, `':'` are comparisons of code points);
* a Python string is a list of byte codes (`key`, `start`, `value`,
  the sentinel `'ALL'`, the literal `'Checksum'`);
* the Python dict `values` is an association list updated in place:
  assignment to an existing key overwrites that entry in place,
  assignment to a fresh key appends, preserving insertion order;
* the running `bytes_sum` is an unbounded natural number, reduced
  modulo 256 only where the code writes `% 256`;
* the `raise AssertionError()` in the final `else` branch of
  `VEDirect.input` is `Except.error ()`; every other path is `.ok`
  carrying the next state and the optional returned frame.
-/

namespace VED

abbrev Byte := Nat
abbrev Str := List Byte
abbrev Frame := List (Str × Str)

/-- `(HEX, WAIT_HEADER, IN_KEY, IN_VALUE, IN_CHECKSUM) = range(5)` -/
def HEX : Nat := 0

def WAIT_HEADER : Nat := 1

def IN_KEY : Nat := 2

def IN_VALUE : Nat := 3

def IN_CHECKSUM : Nat := 4

/-- `self.header1 = '\r'` -/
def header1 : Byte := 13

/-- `self.header2 = '\n'` -/
def header2 : Byte := 10

/-- `self.hexmarker = ':'` -/
def hexmarker : Byte := 58

/-- `self.delimiter = '\t'` -/
def delimiter : Byte := 9

/-- The literal string `'Checksum'` as byte codes. -/
def ChecksumKey : Str := [67, 104, 101, 99, 107, 115, 117, 109]

/-- The sentinel string `'ALL'` stored into `self.start` when the anchor
key recurs (the frame-boundary flag). -/
def ALL : Str := [65, 76, 76]

/-- The mutable fields of a `VEDirect` instance that the byte-level state
machine touches, in the order `__init__` assigns them. -/
structure VEDirect where
  key : Str
  start : Str
  value : Str
  bytes_sum : Nat
  state : Nat
  values : Frame
deriving DecidableEq, Repr

/-- The parsing state of a freshly constructed decoder (`__init__`). -/
def init : VEDirect :=
  { key := [], start := [], value := [], bytes_sum := 0,
    state := WAIT_HEADER, values := [] }

/-- Python dict assignment `m[k] = v`: overwrite in place if `k` is
present, append otherwise. -/
def dictInsert : Frame → Str → Str → Frame
  | [], k, v => [(k, v)]
  | (k0, v0) :: rest, k, v =>
      if k0 = k then (k, v) :: rest else (k0, v0) :: dictInsert rest k v

/-- `VEDirect.input(self, byte)`: consume one byte, mutate the decoder
state, return the completed frame when one is finished. -/
def input (s0 : VEDirect) (byte : Byte) :
    Except Unit (VEDirect × Option Frame) :=
  let s := if byte = hexmarker ∧ s0.state ≠ IN_CHECKSUM then
             { s0 with state := HEX } else s0
  if s.state = WAIT_HEADER then
    let s := { s with bytes_sum := s.bytes_sum + byte }
    if byte = header1 then .ok ({ s with state := WAIT_HEADER }, none)
    else if byte = header2 then .ok ({ s with state := IN_KEY }, none)
    else .ok (s, none)
  else if s.state = IN_KEY then
    let s := { s with bytes_sum := s.bytes_sum + byte }
    if byte = delimiter then
      let s :=
        if s.start = s.key then { s with start := ALL }
        else if s.start = [] then { s with start := s.key }
        else s
      if s.key = ChecksumKey then .ok ({ s with state := IN_CHECKSUM }, none)
      else .ok ({ s with state := IN_VALUE }, none)
    else .ok ({ s with key := s.key ++ [byte] }, none)
  else if s.state = IN_VALUE then
    let s := { s with bytes_sum := s.bytes_sum + byte }
    if byte = header1 then
      .ok ({ s with state := WAIT_HEADER,
                    values := dictInsert s.values s.key s.value,
                    key := [], value := [] }, none)
    else .ok ({ s with value := s.value ++ [byte] }, none)
  else if s.state = IN_CHECKSUM then
    let s := { s with bytes_sum := s.bytes_sum + byte, key := [],
                      value := [], state := WAIT_HEADER }
    if s.bytes_sum % 256 = 0 then
      let s := { s with bytes_sum := 0 }
      if s.start = ALL then .ok ({ s with start := [] }, some s.values)
      else .ok (s, none)
    else
      .ok ({ s with bytes_sum := 0, start := [], values := [] }, none)
  else if s.state = HEX then
    let s := { s with bytes_sum := 0 }
    if byte = header2 then .ok ({ s with state := WAIT_HEADER }, none)
    else .ok (s, none)
  else .error ()

/-- Feed a list of bytes one at a time, collecting the per-byte result of
`input` (`none` = the call returned `None`, `some f` = it returned the
frame `f`); an `AssertionError` anywhere aborts the run. -/
def run (s : VEDirect) : List Byte → Except Unit (VEDirect × List (Option Frame))
  | [] => .ok (s, [])
  | b :: bs =>
    match input s b with
    | .error e => .error e
    | .ok (s1, out) =>
      match run s1 bs with
      | .error e => .error e
      | .ok (s2, outs) => .ok (s2, out :: outs)

/-- The checksum byte that closes a byte sequence: the unique value in
`[0, 256)` making the total sum divisible by 256. -/
def checkByte (bs : List Byte) : Byte := (256 - bs.sum % 256) % 256

/-- The anchor/boundary bookkeeping performed on the tab that ends a key
(`if self.start == self.key: ... elif self.start == '': ...`). -/
def anchorUpdate (st k : Str) : Str :=
  if st = k then ALL else if st = [] then k else st

/-- One encoded field: `key TAB value CR LF`. -/
def encodePair (p : Str × Str) : List Byte :=
  p.1 ++ [delimiter] ++ p.2 ++ [header1, header2]

/-- The checksummed part of a frame whose first pair is `(k1, v1)`,
followed by `rest`, with the first pair repeated to close the cycle
and the trailing `Checksum` key: everything but the checksum byte. -/
def frameBody (k1 v1 : Str) (rest : List (Str × Str)) : List Byte :=
  [header1, header2] ++ encodePair (k1, v1) ++ (rest.map encodePair).flatten
    ++ encodePair (k1, v1) ++ ChecksumKey ++ [delimiter]

/-- A complete valid encoded frame: body plus its closing checksum byte. -/
def encodeFrame (k1 v1 : Str) (rest : List (Str × Str)) : List Byte :=
  frameBody k1 v1 rest ++ [checkByte (frameBody k1 v1 rest)]

/-- A byte that may appear inside a key or value of a well-formed text
frame: a real byte that is none of tab, line-feed, carriage-return,
or the hex marker. -/
def plain (b : Byte) : Prop :=
  b < 256 ∧ b ≠ delimiter ∧ b ≠ header2 ∧ b ≠ header1 ∧ b ≠ hexmarker

instance : DecidablePred plain := fun b => by
  unfold plain; infer_instance

def goodStr (s : Str) : Prop := ∀ b ∈ s, plain b

instance : DecidablePred goodStr := fun s => by
  unfold goodStr; infer_instance

/-- A usable field key: plain bytes, nonempty, and not one of the two
strings `input` treats specially (`'Checksum'` and the sentinel `'ALL'`). -/
def goodKey (k : Str) : Prop :=
  goodStr k ∧ k ≠ [] ∧ k ≠ ChecksumKey ∧ k ≠ ALL

instance : DecidablePred goodKey := fun k => by
  unfold goodKey; infer_instance

/-! ### Single-step lemmas: one byte in each state -/

lemma input_wait_cr (k st v : Str) (c : Nat) (m : Frame) :
    input ⟨k, st, v, c, WAIT_HEADER, m⟩ header1 =
      .ok (⟨k, st, v, c + header1, WAIT_HEADER, m⟩, none) := rfl

lemma input_wait_lf (k st v : Str) (c : Nat) (m : Frame) :
    input ⟨k, st, v, c, WAIT_HEADER, m⟩ header2 =
      .ok (⟨k, st, v, c + header2, IN_KEY, m⟩, none) := rfl

lemma input_key_plain (k st v : Str) (c : Nat) (m : Frame) (b : Byte)
    (hb9 : b ≠ delimiter) (hb58 : b ≠ hexmarker) :
    input ⟨k, st, v, c, IN_KEY, m⟩ b =
      .ok (⟨k ++ [b], st, v, c + b, IN_KEY, m⟩, none) := by
  simp only [delimiter] at hb9
  simp only [hexmarker] at hb58
  simp [input, hb9, hb58, IN_KEY, WAIT_HEADER, IN_CHECKSUM, HEX,
    hexmarker, delimiter]

lemma input_key_tab (k st v : Str) (c : Nat) (m : Frame)
    (hk : k ≠ ChecksumKey) :
    input ⟨k, st, v, c, IN_KEY, m⟩ delimiter =
      .ok (⟨k, anchorUpdate st k, v, c + delimiter, IN_VALUE, m⟩, none) := by
  unfold input anchorUpdate
  by_cases h1 : st = k
  · subst h1
    simp [hk, IN_KEY, WAIT_HEADER, IN_CHECKSUM, HEX, IN_VALUE,
      hexmarker, delimiter]
  · by_cases h2 : st = []
    · subst h2
      have h1' : ¬k = [] := fun h => h1 h.symm
      simp [hk, h1, h1', IN_KEY, WAIT_HEADER, IN_CHECKSUM, HEX, IN_VALUE,
        hexmarker, delimiter]
    · simp [hk, h1, h2, IN_KEY, WAIT_HEADER, IN_CHECKSUM, HEX, IN_VALUE,
        hexmarker, delimiter]

lemma input_key_tab_checksum (st v : Str) (c : Nat) (m : Frame) :
    input ⟨ChecksumKey, st, v, c, IN_KEY, m⟩ delimiter =
      .ok (⟨ChecksumKey, anchorUpdate st ChecksumKey, v, c + delimiter,
            IN_CHECKSUM, m⟩, none) := by
  unfold input anchorUpdate
  by_cases h1 : st = ChecksumKey
  · subst h1
    simp [IN_KEY, WAIT_HEADER, IN_CHECKSUM, HEX, IN_VALUE,
      hexmarker, delimiter]
  · by_cases h2 : st = []
    · subst h2
      simp [IN_KEY, WAIT_HEADER, IN_CHECKSUM, HEX, IN_VALUE,
        hexmarker, delimiter, ChecksumKey]
    · simp [h1, h2, IN_KEY, WAIT_HEADER, IN_CHECKSUM, HEX, IN_VALUE,
        hexmarker, delimiter]

lemma input_value_plain (k st v : Str) (c : Nat) (m : Frame) (b : Byte)
    (hb13 : b ≠ header1) (hb58 : b ≠ hexmarker) :
    input ⟨k, st, v, c, IN_VALUE, m⟩ b =
      .ok (⟨k, st, v ++ [b], c + b, IN_VALUE, m⟩, none) := by
  simp only [header1] at hb13
  simp only [hexmarker] at hb58
  simp [input, hb13, hb58, IN_VALUE, IN_KEY, WAIT_HEADER, IN_CHECKSUM, HEX,
    hexmarker, header1]

lemma input_value_cr (k st v : Str) (c : Nat) (m : Frame) :
    input ⟨k, st, v, c, IN_VALUE, m⟩ header1 =
      .ok (⟨[], st, [], c + header1, WAIT_HEADER, dictInsert m k v⟩,
           none) := rfl

lemma input_checksum_emit (k v : Str) (c : Nat) (m : Frame) (b : Byte)
    (hsum : (c + b) % 256 = 0) :
    input ⟨k, ALL, v, c, IN_CHECKSUM, m⟩ b =
      .ok (⟨[], [], [], 0, WAIT_HEADER, m⟩, some m) := by
  simp [input, IN_CHECKSUM, WAIT_HEADER, IN_KEY, IN_VALUE, HEX,
    hexmarker, hsum]

lemma input_checksum_partial (k st v : Str) (c : Nat) (m : Frame) (b : Byte)
    (hsum : (c + b) % 256 = 0) (hst : st ≠ ALL) :
    input ⟨k, st, v, c, IN_CHECKSUM, m⟩ b =
      .ok (⟨[], st, [], 0, WAIT_HEADER, m⟩, none) := by
  simp [input, IN_CHECKSUM, WAIT_HEADER, IN_KEY, IN_VALUE, HEX,
    hexmarker, hsum, hst]

lemma input_checksum_bad (k st v : Str) (c : Nat) (m : Frame) (b : Byte)
    (hsum : (c + b) % 256 ≠ 0) :
    input ⟨k, st, v, c, IN_CHECKSUM, m⟩ b = .ok (init, none) := by
  simp [input, init, IN_CHECKSUM, WAIT_HEADER, IN_KEY, IN_VALUE, HEX,
    hexmarker, hsum]

lemma input_hex_stay (k st v : Str) (c : Nat) (m : Frame) (b : Byte)
    (hb : b ≠ header2) :
    input ⟨k, st, v, c, HEX, m⟩ b =
      .ok (⟨k, st, v, 0, HEX, m⟩, none) := by
  simp only [header2] at hb
  by_cases h58 : b = 58 <;>
    simp [input, hb, h58, HEX, WAIT_HEADER, IN_KEY, IN_VALUE, IN_CHECKSUM,
      hexmarker, header2]

lemma input_hex_lf (k st v : Str) (c : Nat) (m : Frame) :
    input ⟨k, st, v, c, HEX, m⟩ header2 =
      .ok (⟨k, st, v, 0, WAIT_HEADER, m⟩, none) := rfl

lemma input_hex_enter (k st v : Str) (c : Nat) (m : Frame) (S : Nat)
    (hS : S ≠ IN_CHECKSUM) :
    input ⟨k, st, v, c, S, m⟩ hexmarker =
      .ok (⟨k, st, v, 0, HEX, m⟩, none) := by
  simp only [IN_CHECKSUM] at hS
  simp [input, hS, HEX, WAIT_HEADER, IN_KEY, IN_VALUE, IN_CHECKSUM,
    hexmarker, header2]

/-! ### Composing runs -/

lemma run_cons (s s1 s2 : VEDirect) (b : Byte) (bs : List Byte)
    (o : Option Frame) (os : List (Option Frame))
    (h1 : input s b = .ok (s1, o)) (h2 : run s1 bs = .ok (s2, os)) :
    run s (b :: bs) = .ok (s2, o :: os) := by
  simp [run, h1, h2]

lemma run_append (xs : List Byte) (s s1 s2 : VEDirect) (ys : List Byte)
    (o1 o2 : List (Option Frame))
    (h1 : run s xs = .ok (s1, o1)) (h2 : run s1 ys = .ok (s2, o2)) :
    run s (xs ++ ys) = .ok (s2, o1 ++ o2) := by
  induction xs generalizing s o1 with
  | nil =>
    simp [run] at h1
    simp [h1.1, h1.2, h2]
  | cons b bs ih =>
    rcases hb : input s b with e | ⟨sb, ob⟩
    · exfalso; simp [run, hb] at h1
    · rcases hr : run sb bs with e | ⟨sr, or⟩
      · exfalso; simp [run, hb, hr] at h1
      · simp only [run, hb, hr] at h1
        simp only [Except.ok.injEq, Prod.mk.injEq] at h1
        obtain ⟨rfl, rfl⟩ := h1
        simpa using run_cons _ _ _ _ _ _ _ hb (ih _ _ hr)

/-- Feeding a run of key bytes (no tab, no hex marker) in `IN_KEY`
appends them to the key buffer and to the running sum. -/
lemma run_key_feed (ks : List Byte) (hks : ∀ b ∈ ks, b ≠ delimiter ∧ b ≠ hexmarker)
    (k st v : Str) (c : Nat) (m : Frame) :
    run ⟨k, st, v, c, IN_KEY, m⟩ ks =
      .ok (⟨k ++ ks, st, v, c + ks.sum, IN_KEY, m⟩,
           List.replicate ks.length none) := by
  induction ks generalizing k c with
  | nil => simp [run]
  | cons b bs ih =>
    have hb := hks b (by simp)
    have h1 := input_key_plain k st v c m b hb.1 hb.2
    have h2 := ih (fun x hx => hks x (by simp [hx])) (k ++ [b]) (c + b)
    have := run_cons _ _ _ _ _ _ _ h1 h2
    simpa [List.replicate_succ, add_assoc] using this

/-- Feeding a run of value bytes (no carriage-return, no hex marker) in
`IN_VALUE` appends them to the value buffer and to the running sum. -/
lemma run_value_feed (vs : List Byte) (hvs : ∀ b ∈ vs, b ≠ header1 ∧ b ≠ hexmarker)
    (k st v : Str) (c : Nat) (m : Frame) :
    run ⟨k, st, v, c, IN_VALUE, m⟩ vs =
      .ok (⟨k, st, v ++ vs, c + vs.sum, IN_VALUE, m⟩,
           List.replicate vs.length none) := by
  induction vs generalizing v c with
  | nil => simp [run]
  | cons b bs ih =>
    have hb := hvs b (by simp)
    have h1 := input_value_plain k st v c m b hb.1 hb.2
    have h2 := ih (fun x hx => hvs x (by simp [hx])) (v ++ [b]) (c + b)
    have := run_cons _ _ _ _ _ _ _ h1 h2
    simpa [List.replicate_succ, add_assoc] using this

/-- Inside a hex segment, any run of non-line-feed bytes is discarded:
buffers and pending values untouched, the sum pinned at zero. -/
lemma run_hex_body (bs : List Byte) (hbs : ∀ b ∈ bs, b ≠ header2)
    (k st v : Str) (c : Nat) (m : Frame) (hc : c = 0) :
    run ⟨k, st, v, c, HEX, m⟩ bs =
      .ok (⟨k, st, v, 0, HEX, m⟩, List.replicate bs.length none) := by
  induction bs generalizing c with
  | nil => simp [run, hc]
  | cons b rest ih =>
    have h1 := input_hex_stay k st v c m b (hbs b (by simp))
    have h2 := ih (fun x hx => hbs x (by simp [hx])) 0 rfl
    have := run_cons _ _ _ _ _ _ _ h1 h2
    simpa [List.replicate_succ] using this

/-! ### Association-list facts -/

lemma dictInsert_fresh (m : Frame) (k v : Str) (h : ∀ q ∈ m, q.1 ≠ k) :
    dictInsert m k v = m ++ [(k, v)] := by
  induction m with
  | nil => rfl
  | cons q rest ih =>
    have hq : q.1 ≠ k := h q (by simp)
    cases q with
    | mk qk qv =>
      simp only [dictInsert, if_neg hq, List.cons_append, List.cons.injEq,
        true_and]
      exact ih (fun p hp => h p (by simp [hp]))

lemma dictInsert_head (k v : Str) (rest : Frame) :
    dictInsert ((k, v) :: rest) k v = (k, v) :: rest := by
  simp [dictInsert]

lemma mem_keys_dictInsert (m : Frame) (k v a : Str) :
    a ∈ (dictInsert m k v).map Prod.fst ↔ a = k ∨ a ∈ m.map Prod.fst := by
  induction m with
  | nil => simp [dictInsert]
  | cons q rest ih =>
    cases q with
    | mk qk qv =>
      by_cases hq : qk = k
      · subst hq
        simp [dictInsert]
      · simp only [dictInsert, if_neg hq, List.map_cons, List.mem_cons, ih]
        tauto

/-! ### Checksum arithmetic -/

lemma checkByte_spec (bs : List Byte) : (bs.sum + checkByte bs) % 256 = 0 := by
  have h : ∀ n : ℕ, (n + (256 - n % 256) % 256) % 256 = 0 := by
    intro n; omega
  exact h bs.sum

lemma checkByte_lt (bs : List Byte) : checkByte bs < 256 := by
  have h : ∀ n : ℕ, (256 - n % 256) % 256 < 256 := by
    intro n; omega
  exact h bs.sum

/-! ### One field, one frame -/

/-- Feeding one encoded field `key TAB value CR LF` from the start of a
key: the pair is stored, the anchor updated, and the machine is back at
the start of a key. -/
lemma run_pair (k v st : Str) (c : Nat) (m : Frame)
    (hk : ∀ b ∈ k, b ≠ delimiter ∧ b ≠ hexmarker)
    (hv : ∀ b ∈ v, b ≠ header1 ∧ b ≠ hexmarker)
    (hkc : k ≠ ChecksumKey) :
    run ⟨[], st, [], c, IN_KEY, m⟩ (encodePair (k, v)) =
      .ok (⟨[], anchorUpdate st k, [], c + (encodePair (k, v)).sum, IN_KEY,
            dictInsert m k v⟩,
           List.replicate (encodePair (k, v)).length none) := by
  have e1 := run_key_feed k hk [] st [] c m
  simp only [List.nil_append] at e1
  have e2 : run ⟨k, st, [], c + k.sum, IN_KEY, m⟩ [delimiter] =
      .ok (⟨k, anchorUpdate st k, [], c + k.sum + delimiter, IN_VALUE, m⟩,
           [none]) :=
    run_cons _ _ _ _ _ _ _ (input_key_tab k st [] (c + k.sum) m hkc) rfl
  have e3 := run_value_feed v hv k (anchorUpdate st k) []
    (c + k.sum + delimiter) m
  simp only [List.nil_append] at e3
  have e4 : run ⟨k, anchorUpdate st k, v, c + k.sum + delimiter + v.sum,
                 IN_VALUE, m⟩ [header1, header2] =
      .ok (⟨[], anchorUpdate st k, [],
            c + k.sum + delimiter + v.sum + header1 + header2, IN_KEY,
            dictInsert m k v⟩, [none, none]) := by
    refine run_cons _ _ _ _ _ _ _ (input_value_cr _ _ _ _ _) ?_
    exact run_cons _ _ _ _ _ _ _ (input_wait_lf _ _ _ _ _) rfl
  have e12 := run_append _ _ _ _ _ _ _ e1 e2
  have e123 := run_append _ _ _ _ _ _ _ e12 e3
  have e := run_append _ _ _ _ _ _ _ e123 e4
  have hbytes : encodePair (k, v) =
      ((k ++ [delimiter]) ++ v) ++ [header1, header2] := by
    simp [encodePair]
  have hsum : c + k.sum + delimiter + v.sum + header1 + header2 =
      c + (encodePair (k, v)).sum := by
    rw [hbytes, List.sum_append, List.sum_append, List.sum_append]
    simp [delimiter, header1, header2]
    omega
  have hrep : ((List.replicate k.length (none : Option Frame) ++ [none]) ++
        List.replicate v.length none) ++ [none, none] =
      List.replicate (encodePair (k, v)).length none := by
    rw [hbytes]
    simp only [List.length_append, List.length_cons, List.length_singleton,
      List.length_nil]
    rw [List.replicate_add, List.replicate_add, List.replicate_add]
    simp
  rw [hsum, hrep] at e
  rw [hbytes]
  rw [← hbytes]
  exact e

/-- A well-formed tail pair for an in-progress cycle with anchor `a`:
plain bytes, key neither `Checksum` nor the anchor. -/
def goodTailPair (a : Str) (p : Str × Str) : Prop :=
  (∀ b ∈ p.1, b ≠ delimiter ∧ b ≠ hexmarker) ∧
    (∀ b ∈ p.2, b ≠ header1 ∧ b ≠ hexmarker) ∧
    p.1 ≠ ChecksumKey ∧ p.1 ≠ a

/-- Feeding a sequence of encoded fields whose keys all differ from the
established anchor `a`: they are inserted in order, the anchor is kept. -/
lemma run_pairs (rest : List (Str × Str)) (a : Str) (c : Nat) (m : Frame)
    (ha : a ≠ []) (h : ∀ p ∈ rest, goodTailPair a p) :
    run ⟨[], a, [], c, IN_KEY, m⟩ (rest.map encodePair).flatten =
      .ok (⟨[], a, [], c + ((rest.map encodePair).flatten).sum, IN_KEY,
            List.foldl (fun acc p => dictInsert acc p.1 p.2) m rest⟩,
           List.replicate ((rest.map encodePair).flatten).length none) := by
  induction rest generalizing c m with
  | nil => simp [run]
  | cons p ps ih =>
    obtain ⟨pk, pv⟩ := p
    obtain ⟨hk, hv, hkc, hka⟩ := h (pk, pv) (by simp)
    have hanchor : anchorUpdate a pk = a := by
      unfold anchorUpdate
      rw [if_neg (fun hh => hka hh.symm), if_neg ha]
    have e1 := run_pair pk pv a c m hk hv hkc
    rw [hanchor] at e1
    have e2 := ih (c + (encodePair (pk, pv)).sum) (dictInsert m pk pv)
      (fun q hq => h q (by simp [hq]))
    have e := run_append _ _ _ _ _ _ _ e1 e2
    simp only [List.map_cons, List.flatten_cons, List.foldl_cons]
    have hsum : c + (encodePair (pk, pv)).sum +
        ((ps.map encodePair).flatten).sum =
        c + (encodePair (pk, pv) ++ (ps.map encodePair).flatten).sum := by
      rw [List.sum_append]; omega
    have hrep : List.replicate (encodePair (pk, pv)).length
          (none : Option Frame) ++
          List.replicate ((ps.map encodePair).flatten).length none =
        List.replicate
          (encodePair (pk, pv) ++ (ps.map encodePair).flatten).length none := by
      rw [List.length_append, List.replicate_add]
    rw [hsum, hrep] at e
    exact e

lemma foldl_dictInsert_fresh (rest : List (Str × Str)) (m : Frame)
    (hfresh : ∀ p ∈ rest, ∀ q ∈ m, q.1 ≠ p.1)
    (hdist : rest.Pairwise (fun p q => p.1 ≠ q.1)) :
    List.foldl (fun acc p => dictInsert acc p.1 p.2) m rest = m ++ rest := by
  induction rest generalizing m with
  | nil => simp
  | cons p ps ih =>
    simp only [List.foldl_cons]
    rw [dictInsert_fresh m p.1 p.2 (fun q hq => hfresh p (by simp) q hq)]
    have hdist' := List.pairwise_cons.mp hdist
    rw [ih (m ++ [(p.1, p.2)]) ?_ hdist'.2]
    · simp
    · intro r hr q hq
      rcases List.mem_append.mp hq with hq | hq
      · exact hfresh r (by simp [hr]) q hq
      · have : q = (p.1, p.2) := by simpa using hq
        subst this
        exact hdist'.1 r hr

/-- Feeding `Checksum` then the tab, from the start of a key with an
anchor that is neither empty nor the literal `Checksum`. -/
lemma run_checksum_tail (st : Str) (hst : st ≠ []) (hstc : st ≠ ChecksumKey)
    (c : Nat) (m : Frame) :
    run ⟨[], st, [], c, IN_KEY, m⟩ (ChecksumKey ++ [delimiter]) =
      .ok (⟨ChecksumKey, st, [], c + ChecksumKey.sum + delimiter,
            IN_CHECKSUM, m⟩,
           List.replicate (ChecksumKey.length + 1) none) := by
  have e1 := run_key_feed ChecksumKey (by decide) [] st [] c m
  simp only [List.nil_append] at e1
  have hanchor : anchorUpdate st ChecksumKey = st := by
    unfold anchorUpdate
    rw [if_neg hstc, if_neg hst]
  have e2 : run ⟨ChecksumKey, st, [], c + ChecksumKey.sum, IN_KEY, m⟩
      [delimiter] =
      .ok (⟨ChecksumKey, st, [], c + ChecksumKey.sum + delimiter,
            IN_CHECKSUM, m⟩, [none]) := by
    have h := input_key_tab_checksum st [] (c + ChecksumKey.sum) m
    rw [hanchor] at h
    exact run_cons _ _ _ _ _ _ _ h rfl
  have e := run_append _ _ _ _ _ _ _ e1 e2
  have hrep : List.replicate ChecksumKey.length (none : Option Frame) ++
      [none] = List.replicate (ChecksumKey.length + 1) none := by
    rw [List.replicate_add]; simp
  rw [hrep] at e
  exact e

lemma goodStr_key (k : Str) (h : goodStr k) :
    ∀ b ∈ k, b ≠ delimiter ∧ b ≠ hexmarker :=
  fun b hb => ⟨(h b hb).2.1, (h b hb).2.2.2.2⟩

lemma goodStr_val (v : Str) (h : goodStr v) :
    ∀ b ∈ v, b ≠ header1 ∧ b ≠ hexmarker :=
  fun b hb => ⟨(h b hb).2.2.2.1, (h b hb).2.2.2.2⟩

/-- The central correctness lemma: a freshly constructed decoder fed one
complete valid encoded frame answers `None` on every byte except the
final checksum byte, where it returns exactly the encoded pairs, in
order, and ends in the post-emission state. -/
lemma run_validFrame (k1 v1 : Str) (rest : List (Str × Str))
    (h1 : goodKey k1) (h2 : goodStr v1)
    (hrest : ∀ p ∈ rest, goodKey p.1 ∧ goodStr p.2 ∧ p.1 ≠ k1)
    (hdist : rest.Pairwise (fun p q => p.1 ≠ q.1)) :
    run init (encodeFrame k1 v1 rest) =
      .ok (⟨[], [], [], 0, WAIT_HEADER, (k1, v1) :: rest⟩,
           List.replicate ((encodeFrame k1 v1 rest).length - 1) none ++
             [some ((k1, v1) :: rest)]) := by
  obtain ⟨h1p, h1ne, h1nc, h1na⟩ := h1
  have hk1 := goodStr_key k1 h1p
  have hv1 := goodStr_val v1 h2
  -- the CR LF header
  have e1 : run init [header1, header2] =
      .ok (⟨[], [], [], 23, IN_KEY, []⟩, [none, none]) := rfl
  -- the first pair, recording the anchor
  have e2 := run_pair k1 v1 [] 23 [] hk1 hv1 h1nc
  have ha1 : anchorUpdate [] k1 = k1 := by
    unfold anchorUpdate
    rw [if_neg (fun hh => h1ne hh.symm), if_pos rfl]
  rw [ha1, (rfl : dictInsert [] k1 v1 = [(k1, v1)])] at e2
  -- the remaining pairs, keeping the anchor
  have e3 := run_pairs rest k1 (23 + (encodePair (k1, v1)).sum) [(k1, v1)]
    h1ne (fun p hp =>
      ⟨goodStr_key p.1 (hrest p hp).1.1, goodStr_val p.2 (hrest p hp).2.1,
       (hrest p hp).1.2.2.1, (hrest p hp).2.2⟩)
  have hfold : List.foldl (fun acc p => dictInsert acc p.1 p.2)
      [(k1, v1)] rest = (k1, v1) :: rest := by
    rw [foldl_dictInsert_fresh rest [(k1, v1)] ?_ hdist]
    · simp
    · intro p hp q hq
      have : q = (k1, v1) := by simpa using hq
      subst this
      exact fun hh => (hrest p hp).2.2 hh.symm
  rw [hfold] at e3
  -- the repeated first pair: sets the boundary flag, rewrites in place
  have e4 := run_pair k1 v1 k1
    (23 + (encodePair (k1, v1)).sum + ((rest.map encodePair).flatten).sum)
    ((k1, v1) :: rest) hk1 hv1 h1nc
  have ha2 : anchorUpdate k1 k1 = ALL := by
    unfold anchorUpdate; rw [if_pos rfl]
  rw [ha2, dictInsert_head] at e4
  -- the Checksum key and its tab
  have e5 := run_checksum_tail ALL (by decide) (by decide)
    (23 + (encodePair (k1, v1)).sum + ((rest.map encodePair).flatten).sum +
      (encodePair (k1, v1)).sum)
    ((k1, v1) :: rest)
  -- the checksum byte: the running total is the body sum
  have hsumA : ((23 : ℕ) + (encodePair (k1, v1)).sum +
      ((rest.map encodePair).flatten).sum + (encodePair (k1, v1)).sum +
      ChecksumKey.sum + delimiter : ℕ) = (frameBody k1 v1 rest).sum := by
    simp [frameBody, List.sum_append, header1, header2, delimiter]
    omega
  have hemit : (23 + (encodePair (k1, v1)).sum +
      ((rest.map encodePair).flatten).sum + (encodePair (k1, v1)).sum +
      ChecksumKey.sum + delimiter + checkByte (frameBody k1 v1 rest)) %
        256 = 0 := by
    rw [hsumA]; exact checkByte_spec (frameBody k1 v1 rest)
  have e6 : run ⟨ChecksumKey, ALL, [],
      23 + (encodePair (k1, v1)).sum +
        ((rest.map encodePair).flatten).sum + (encodePair (k1, v1)).sum +
        ChecksumKey.sum + delimiter, IN_CHECKSUM, (k1, v1) :: rest⟩
      [checkByte (frameBody k1 v1 rest)] =
      .ok (⟨[], [], [], 0, WAIT_HEADER, (k1, v1) :: rest⟩,
           [some ((k1, v1) :: rest)]) :=
    run_cons _ _ _ _ _ _ _
      (input_checksum_emit ChecksumKey [] _ ((k1, v1) :: rest) _ hemit) rfl
  -- assemble
  have e12 := run_append _ _ _ _ _ _ _ e1 e2
  have e123 := run_append _ _ _ _ _ _ _ e12 e3
  have e1234 := run_append _ _ _ _ _ _ _ e123 e4
  have e12345 := run_append _ _ _ _ _ _ _ e1234 e5
  have etotal := run_append _ _ _ _ _ _ _ e12345 e6
  have hshape : encodeFrame k1 v1 rest =
      (((([header1, header2] ++ encodePair (k1, v1)) ++
        (rest.map encodePair).flatten) ++ encodePair (k1, v1)) ++
        (ChecksumKey ++ [delimiter])) ++
        [checkByte (frameBody k1 v1 rest)] := by
    simp [encodeFrame, frameBody]
  rw [hshape, etotal]
  have houts : (((([none, none] ++
        List.replicate (encodePair (k1, v1)).length (none : Option Frame)) ++
        List.replicate ((rest.map encodePair).flatten).length none) ++
        List.replicate (encodePair (k1, v1)).length none) ++
        List.replicate (ChecksumKey.length + 1) none) =
      List.replicate ((encodeFrame k1 v1 rest).length - 1) none := by
    simp only [show [none, none] = List.replicate 2 (none : Option Frame)
        from rfl, ← List.replicate_add]
    congr 1
    have hlen : (encodeFrame k1 v1 rest).length =
        2 + (encodePair (k1, v1)).length +
          ((rest.map encodePair).flatten).length +
          (encodePair (k1, v1)).length + (ChecksumKey.length + 1) + 1 := by
      simp [encodeFrame, frameBody, List.length_append]
      omega
    rw [hlen]
    omega
  rw [houts, ← hshape]

/-! ### The AssertionError branch is unreachable from the five states -/

lemma input_ok (k st v : Str) (c : Nat) (S : Nat) (m : Frame) (h : S < 5)
    (b : Byte) :
    ∃ r : VEDirect × Option Frame,
      input ⟨k, st, v, c, S, m⟩ b = .ok r ∧ r.1.state < 5 := by
  simp only [input, HEX, WAIT_HEADER, IN_KEY, IN_VALUE, IN_CHECKSUM] at h ⊢
  split_ifs <;> first
    | (refine ⟨_, rfl, ?_⟩; simp_all <;> omega)
    | (refine ⟨_, rfl, ?_⟩; simp_all)
    | omega
    | (simp_all <;> omega)

lemma run_ok (bs : List Byte) (s : VEDirect) (h : s.state < 5) :
    ∃ r : VEDirect × List (Option Frame),
      run s bs = .ok r ∧ r.1.state < 5 := by
  induction bs generalizing s with
  | nil => exact ⟨(s, []), rfl, h⟩
  | cons b bs ih =>
    obtain ⟨k, st, v, c, S, m⟩ := s
    obtain ⟨⟨s1, o⟩, h1, hs1⟩ := input_ok k st v c S m h b
    obtain ⟨⟨s2, os⟩, h2, hs2⟩ := ih s1 hs1
    exact ⟨(s2, o :: os), run_cons _ _ _ _ _ _ _ h1 h2, hs2⟩

/-! ### Hex segments -/

lemma reduceOption_replicate_none (n : Nat) :
    (List.replicate n (none : Option Frame)).reduceOption = [] := by
  induction n with
  | zero => simp
  | succ k ih => simp [List.replicate_succ, ih]

/-- A complete hex segment (`:` marker, payload without line-feed,
closing line-feed) fed from any state except `IN_CHECKSUM`: buffers and
pending values are untouched, the sum is zeroed, and the decoder is in
`WAIT_HEADER`. -/
lemma run_hexseg (body : List Byte) (hbody : ∀ b ∈ body, b ≠ header2)
    (k st v : Str) (c : Nat) (S : Nat) (m : Frame) (hS : S ≠ IN_CHECKSUM) :
    run ⟨k, st, v, c, S, m⟩ (hexmarker :: (body ++ [header2])) =
      .ok (⟨k, st, v, 0, WAIT_HEADER, m⟩,
           List.replicate (body.length + 2) none) := by
  have e1 := input_hex_enter k st v c m S hS
  have e2 := run_hex_body body hbody k st v 0 m rfl
  have e3 : run ⟨k, st, v, 0, HEX, m⟩ [header2] =
      .ok (⟨k, st, v, 0, WAIT_HEADER, m⟩, [none]) :=
    run_cons _ _ _ _ _ _ _ (input_hex_lf k st v 0 m) rfl
  have e23 := run_append _ _ _ _ _ _ _ e2 e3
  have e := run_cons _ _ _ _ _ _ _ e1 e23
  have hrep : (none : Option Frame) ::
      (List.replicate body.length none ++ [none]) =
      List.replicate (body.length + 2) none := by
    simp only [show [none] = List.replicate 1 (none : Option Frame) from rfl,
      ← List.replicate_add]
    simp [List.replicate_succ]
  rw [hrep] at e
  exact e

/-! ### Claims -/

/-- C1: for every valid encoded frame (CR/LF header, N tab-delimited
key/value pairs with the first pair repeated to close the cycle, and a
final `Checksum` field whose byte makes the cumulative sum ≡ 0 mod 256),
feeding its bytes one at a time into a freshly constructed decoder
returns a Frame exactly once — on the checksum byte — containing the N
pairs in the order fed, with the anchor key's repeat consumed only as
the boundary (no duplicate entry). -/
theorem valid_frame_decoded_once (k1 v1 : Str) (rest : List (Str × Str))
    (h1 : goodKey k1) (h2 : goodStr v1)
    (hrest : ∀ p ∈ rest, goodKey p.1 ∧ goodStr p.2 ∧ p.1 ≠ k1)
    (hdist : rest.Pairwise (fun p q => p.1 ≠ q.1)) :
    run init (encodeFrame k1 v1 rest) =
      .ok (⟨[], [], [], 0, WAIT_HEADER, (k1, v1) :: rest⟩,
           List.replicate ((encodeFrame k1 v1 rest).length - 1) none ++
             [some ((k1, v1) :: rest)]) :=
  run_validFrame k1 v1 rest h1 h2 hrest hdist

theorem valid_frame_decoded_once_witness :
    (goodKey [86] ∧ goodStr [49] ∧
      (∀ p ∈ ([([73], [50])] : List (Str × Str)),
        goodKey p.1 ∧ goodStr p.2 ∧ p.1 ≠ [86]) ∧
      List.Pairwise (fun p q => p.1 ≠ q.1)
        ([([73], [50])] : List (Str × Str))) ∧
    run init (encodeFrame [86] [49] [([73], [50])]) =
      .ok (⟨[], [], [], 0, WAIT_HEADER, [([86], [49]), ([73], [50])]⟩,
           List.replicate ((encodeFrame [86] [49] [([73], [50])]).length - 1)
             none ++ [some [([86], [49]), ([73], [50])]]) :=
  ⟨⟨by decide, by decide, by decide, by decide⟩,
   valid_frame_decoded_once [86] [49] [([73], [50])]
     (by decide) (by decide) (by decide) (by decide)⟩

/-- The byte sequence `\r\nV\t13580\r\nI\t6900\r\nV\t13580\r\nI\t6900\r\nChecksum\t`,
without the final checksum byte. -/
def c2Body : List Byte :=
  [13, 10, 86, 9, 49, 51, 53, 56, 48,
   13, 10, 73, 9, 54, 57, 48, 48,
   13, 10, 86, 9, 49, 51, 53, 56, 48,
   13, 10, 73, 9, 54, 57, 48, 48,
   13, 10, 67, 104, 101, 99, 107, 115, 117, 109, 9]

/-- C2: feeding `\r\nV\t13580\r\nI\t6900\r\nV\t13580\r\nI\t6900\r\nChecksum\tX`
(X the byte making the running sum ≡ 0 mod 256) into a fresh decoder
returns nothing on every byte but the last, and on X returns the single
frame mapping `V` to `13580` and `I` to `6900`. -/
theorem concrete_frame_scenario :
    (c2Body.sum + checkByte c2Body) % 256 = 0 ∧
    run init (c2Body ++ [checkByte c2Body]) =
      .ok (⟨[], [], [], 0, WAIT_HEADER,
            [([86], [49, 51, 53, 56, 48]), ([73], [54, 57, 48, 48])]⟩,
           List.replicate c2Body.length none ++
             [some [([86], [49, 51, 53, 56, 48]), ([73], [54, 57, 48, 48])]]) :=
  ⟨rfl, rfl⟩

/-- C3: consuming the checksum byte with a nonzero running sum mod 256
returns nothing and leaves the decoder exactly in the freshly
constructed state (no exception on this path); consequently a
well-formed frame fed immediately afterward — here `\r\nT\t2\r\nT\t2\r\nChecksum\tX`
— is decoded successfully. -/
theorem checksum_failure_resets (s : VEDirect) (b : Byte)
    (hstate : s.state = IN_CHECKSUM)
    (hsum : (s.bytes_sum + b) % 256 ≠ 0) :
    input s b = .ok (init, none) ∧
    run init (encodeFrame [84] [50] []) =
      .ok (⟨[], [], [], 0, WAIT_HEADER, [([84], [50])]⟩,
           List.replicate ((encodeFrame [84] [50] []).length - 1) none ++
             [some [([84], [50])]]) := by
  constructor
  · obtain ⟨k, st, v, c, S, m⟩ := s
    replace hstate : S = IN_CHECKSUM := hstate
    subst hstate
    exact input_checksum_bad k st v c m b hsum
  · exact run_validFrame [84] [50] [] (by decide) (by decide)
      (by decide) (by decide)

theorem checksum_failure_resets_witness :
    ((⟨[], [], [], 5, IN_CHECKSUM, []⟩ : VEDirect).state = IN_CHECKSUM ∧
      ((⟨[], [], [], 5, IN_CHECKSUM, []⟩ : VEDirect).bytes_sum + 6) %
        256 ≠ 0) ∧
    (input ⟨[], [], [], 5, IN_CHECKSUM, []⟩ 6 = .ok (init, none) ∧
     run init (encodeFrame [84] [50] []) =
       .ok (⟨[], [], [], 0, WAIT_HEADER, [([84], [50])]⟩,
            List.replicate ((encodeFrame [84] [50] []).length - 1) none ++
              [some [([84], [50])]])) :=
  ⟨⟨rfl, by decide⟩,
   checksum_failure_resets ⟨[], [], [], 5, IN_CHECKSUM, []⟩ 6 rfl (by decide)⟩

/-- C4 counterexample: feeding two back-to-back valid frames
(`A=1` then `B=2`), the second emitted frame still contains the pair
`A ↦ 1` stored before the first emission — the pending values map is
not reset on the emitting call. -/
theorem values_reset_on_emit_cex :
    run init (encodeFrame [65] [49] [] ++ encodeFrame [66] [50] []) =
      .ok (⟨[], [], [], 0, WAIT_HEADER, [([65], [49]), ([66], [50])]⟩,
           (List.replicate 21 none ++ [some [([65], [49])]]) ++
             (List.replicate 21 none ++
               [some [([65], [49]), ([66], [50])]])) ∧
    ([65], [49]) ∈ [([65], [49]), ([66], [50])] :=
  ⟨rfl, by decide⟩

/-- C4 amended: on the emitting feed call the key and value buffers, the
anchor and the running sum are all cleared, but the pending values map
is returned as the frame and kept as-is (not replaced by an empty map),
so fields stored before this emission can reappear in later frames. -/
theorem emit_keeps_values_map (s : VEDirect) (b : Byte)
    (hstate : s.state = IN_CHECKSUM)
    (hsum : (s.bytes_sum + b) % 256 = 0) (hall : s.start = ALL) :
    input s b = .ok (⟨[], [], [], 0, WAIT_HEADER, s.values⟩,
                     some s.values) := by
  obtain ⟨k, st, v, c, S, m⟩ := s
  replace hstate : S = IN_CHECKSUM := hstate
  replace hall : st = ALL := hall
  subst hstate; subst hall
  exact input_checksum_emit k v c m b hsum

theorem emit_keeps_values_map_witness :
    ((⟨[], ALL, [], 256, IN_CHECKSUM, [([65], [49])]⟩ : VEDirect).state =
        IN_CHECKSUM ∧
      ((⟨[], ALL, [], 256, IN_CHECKSUM,
          [([65], [49])]⟩ : VEDirect).bytes_sum + 0) % 256 = 0 ∧
      (⟨[], ALL, [], 256, IN_CHECKSUM,
          [([65], [49])]⟩ : VEDirect).start = ALL) ∧
    input ⟨[], ALL, [], 256, IN_CHECKSUM, [([65], [49])]⟩ 0 =
      .ok (⟨[], [], [], 0, WAIT_HEADER,
            (⟨[], ALL, [], 256, IN_CHECKSUM,
              [([65], [49])]⟩ : VEDirect).values⟩,
           some (⟨[], ALL, [], 256, IN_CHECKSUM,
              [([65], [49])]⟩ : VEDirect).values) :=
  ⟨⟨rfl, by decide, rfl⟩,
   emit_keeps_values_map ⟨[], ALL, [], 256, IN_CHECKSUM, [([65], [49])]⟩ 0
     rfl (by decide) rfl⟩

/-- The first checksum group of the C5 merge scenario: `\r\nA\t1\r\nChecksum\t`. -/
def c5g1 : List Byte := [13, 10, 65, 9, 49, 13, 10] ++ ChecksumKey ++ [9]

/-- The second checksum group: `\r\nB\t2\r\nA\t3\r\nChecksum\t` — the
anchor key `A` recurs here. -/
def c5g2 : List Byte :=
  [13, 10, 66, 9, 50, 13, 10, 65, 9, 51, 13, 10] ++ ChecksumKey ++ [9]

/-- C5: a valid checksum with the boundary flag not yet set returns
nothing and keeps the pending values map unchanged; concretely, two
internally checksummed groups merge into the single frame
`{A ↦ 3, B ↦ 2}` reported only when the anchor key recurs. -/
theorem partial_cycle_keeps_values (s : VEDirect) (b : Byte)
    (hstate : s.state = IN_CHECKSUM)
    (hsum : (s.bytes_sum + b) % 256 = 0) (hst : s.start ≠ ALL) :
    input s b = .ok (⟨[], s.start, [], 0, WAIT_HEADER, s.values⟩, none) ∧
    run init ((c5g1 ++ [checkByte c5g1]) ++ (c5g2 ++ [checkByte c5g2])) =
      .ok (⟨[], [], [], 0, WAIT_HEADER, [([65], [51]), ([66], [50])]⟩,
           List.replicate 38 none ++
             [some [([65], [51]), ([66], [50])]]) := by
  constructor
  · obtain ⟨k, st, v, c, S, m⟩ := s
    replace hstate : S = IN_CHECKSUM := hstate
    subst hstate
    exact input_checksum_partial k st v c m b hsum hst
  · rfl

theorem partial_cycle_keeps_values_witness :
    ((⟨[], [65], [], 255, IN_CHECKSUM, [([65], [49])]⟩ : VEDirect).state =
        IN_CHECKSUM ∧
      ((⟨[], [65], [], 255, IN_CHECKSUM,
          [([65], [49])]⟩ : VEDirect).bytes_sum + 1) % 256 = 0 ∧
      (⟨[], [65], [], 255, IN_CHECKSUM,
          [([65], [49])]⟩ : VEDirect).start ≠ ALL) ∧
    (input ⟨[], [65], [], 255, IN_CHECKSUM, [([65], [49])]⟩ 1 =
      .ok (⟨[], [65], [], 0, WAIT_HEADER, [([65], [49])]⟩, none) ∧
     run init ((c5g1 ++ [checkByte c5g1]) ++ (c5g2 ++ [checkByte c5g2])) =
       .ok (⟨[], [], [], 0, WAIT_HEADER, [([65], [51]), ([66], [50])]⟩,
            List.replicate 38 none ++
              [some [([65], [51]), ([66], [50])]])) :=
  ⟨⟨rfl, by decide, by decide⟩,
   partial_cycle_keeps_values ⟨[], [65], [], 255, IN_CHECKSUM, [([65], [49])]⟩
     1 rfl (by decide) (by decide)⟩

/-- C6 counterexample: in `IN_KEY`, the hex-marker byte `:` (58) is a
non-tab byte, yet it is not appended to the key buffer and the state
changes to `HEX` — refuting "any non-tab byte is appended to the key
buffer and leaves the state unchanged". -/
theorem in_key_nontab_cex :
    input ⟨[86], [], [], 7, IN_KEY, []⟩ 58 =
      .ok (⟨[86], [], [], 0, HEX, []⟩, none) ∧
    (58 : Byte) ≠ delimiter ∧ HEX ≠ IN_KEY ∧
    ([86] : Str) ++ [58] ≠ [86] :=
  ⟨rfl, by decide, by decide, by decide⟩

/-- C6 amended: in `IN_KEY`, a tab ends the key (anchor bookkeeping as
in `anchorUpdate`, then `IN_CHECKSUM` iff the key is literally
`Checksum`, else `IN_VALUE`); the hex marker switches to `HEX` zeroing
the sum; every other byte is appended to the key and leaves the state
unchanged. -/
theorem in_key_transitions (s : VEDirect) (b : Byte)
    (hstate : s.state = IN_KEY) :
    input s b = .ok
      ((if b = hexmarker then
          ⟨s.key, s.start, s.value, 0, HEX, s.values⟩
        else if b = delimiter then
          ⟨s.key, anchorUpdate s.start s.key, s.value, s.bytes_sum + b,
           if s.key = ChecksumKey then IN_CHECKSUM else IN_VALUE, s.values⟩
        else
          ⟨s.key ++ [b], s.start, s.value, s.bytes_sum + b, IN_KEY,
           s.values⟩ : VEDirect), none) := by
  obtain ⟨k, st, v, c, S, m⟩ := s
  replace hstate : S = IN_KEY := hstate
  subst hstate
  by_cases h58 : b = hexmarker
  · subst h58
    rw [if_pos rfl]
    exact input_hex_enter k st v c m IN_KEY (by decide)
  · rw [if_neg h58]
    by_cases h9 : b = delimiter
    · subst h9
      rw [if_pos rfl]
      by_cases hk : k = ChecksumKey
      · subst hk
        simpa using input_key_tab_checksum st v c m
      · simp only [if_neg hk]
        exact input_key_tab k st v c m hk
    · rw [if_neg h9]
      exact input_key_plain k st v c m b h9 h58

theorem in_key_transitions_witness :
    ((⟨[86], [], [], 3, IN_KEY, []⟩ : VEDirect).state = IN_KEY) ∧
    input ⟨[86], [], [], 3, IN_KEY, []⟩ 80 = .ok
      ((if (80 : Byte) = hexmarker then
          ⟨[86], [], [], 0, HEX, []⟩
        else if (80 : Byte) = delimiter then
          ⟨[86], anchorUpdate [] [86], [], 3 + 80,
           if ([86] : Str) = ChecksumKey then IN_CHECKSUM else IN_VALUE, []⟩
        else
          ⟨[86] ++ [80], [], [], 3 + 80, IN_KEY, []⟩ : VEDirect), none) :=
  ⟨rfl, in_key_transitions ⟨[86], [], [], 3, IN_KEY, []⟩ 80 rfl⟩

/-- C7: a byte consumed in the `HEX` state touches neither the key and
value buffers nor the pending values, and zeroes (never accumulates) the
running sum; and a complete `:`-marked segment injected between two
valid text frames leaves the sequence of emitted frames unchanged. -/
theorem hex_segment_invisible (s : VEDirect) (b : Byte) (hs : s.state = HEX)
    (k1 v1 : Str) (r1 : List (Str × Str)) (k2 v2 : Str)
    (r2 : List (Str × Str)) (body : List Byte)
    (h11 : goodKey k1) (h12 : goodStr v1)
    (h1r : ∀ p ∈ r1, goodKey p.1 ∧ goodStr p.2 ∧ p.1 ≠ k1)
    (h1d : r1.Pairwise (fun p q => p.1 ≠ q.1))
    (h21 : goodKey k2) (h22 : goodStr v2)
    (h2r : ∀ p ∈ r2, goodKey p.1 ∧ goodStr p.2 ∧ p.1 ≠ k2)
    (h2d : r2.Pairwise (fun p q => p.1 ≠ q.1))
    (hbody : ∀ x ∈ body, x ≠ header2) :
    (input s b = .ok (⟨s.key, s.start, s.value, 0,
        if b = header2 then WAIT_HEADER else HEX, s.values⟩, none)) ∧
    ∃ S o1 o2,
      run init ((encodeFrame k1 v1 r1 ++ (hexmarker :: (body ++ [header2])))
          ++ encodeFrame k2 v2 r2) = .ok (S, o1) ∧
      run init (encodeFrame k1 v1 r1 ++ encodeFrame k2 v2 r2) =
        .ok (S, o2) ∧
      o1.reduceOption = o2.reduceOption := by
  constructor
  · obtain ⟨k, st, v, c, S, m⟩ := s
    replace hs : S = HEX := hs
    subst hs
    by_cases hb : b = header2
    · subst hb; rw [if_pos rfl]; exact input_hex_lf k st v c m
    · rw [if_neg hb]; exact input_hex_stay k st v c m b hb
  · have e1 := run_validFrame k1 v1 r1 h11 h12 h1r h1d
    have eH := run_hexseg body hbody [] [] [] 0 WAIT_HEADER
      ((k1, v1) :: r1) (by decide)
    obtain ⟨⟨S2, O2⟩, h2, -⟩ := run_ok (encodeFrame k2 v2 r2)
      ⟨[], [], [], 0, WAIT_HEADER, (k1, v1) :: r1⟩
      (by show WAIT_HEADER < 5; decide)
    have ewith := run_append _ _ _ _ _ _ _
      (run_append _ _ _ _ _ _ _ e1 eH) h2
    have ewithout := run_append _ _ _ _ _ _ _ e1 h2
    refine ⟨S2, _, _, ewith, ewithout, ?_⟩
    simp [List.reduceOption_append, reduceOption_replicate_none]

theorem hex_segment_invisible_witness :
    ((⟨[75], [76], [77], 9, HEX, [([65], [49])]⟩ : VEDirect).state = HEX ∧
      goodKey [86] ∧ goodStr [49] ∧
      (∀ p ∈ ([] : List (Str × Str)),
        goodKey p.1 ∧ goodStr p.2 ∧ p.1 ≠ [86]) ∧
      List.Pairwise (fun p q => p.1 ≠ q.1) ([] : List (Str × Str)) ∧
      goodKey [87] ∧ goodStr [50] ∧
      (∀ p ∈ ([] : List (Str × Str)),
        goodKey p.1 ∧ goodStr p.2 ∧ p.1 ≠ [87]) ∧
      (∀ x ∈ ([1, 2] : List Byte), x ≠ header2)) ∧
    ((input ⟨[75], [76], [77], 9, HEX, [([65], [49])]⟩ 33 =
        .ok (⟨[75], [76], [77], 0,
              if (33 : Byte) = header2 then WAIT_HEADER else HEX,
              [([65], [49])]⟩, none)) ∧
     ∃ S o1 o2,
       run init ((encodeFrame [86] [49] [] ++
           (hexmarker :: (([1, 2] : List Byte) ++ [header2]))) ++
           encodeFrame [87] [50] []) = .ok (S, o1) ∧
       run init (encodeFrame [86] [49] [] ++ encodeFrame [87] [50] []) =
         .ok (S, o2) ∧
       o1.reduceOption = o2.reduceOption) :=
  ⟨⟨rfl, by decide, by decide, by decide, by decide, by decide, by decide,
    by decide, by decide⟩,
   by
    have h := hex_segment_invisible ⟨[75], [76], [77], 9, HEX, [([65], [49])]⟩
      33 rfl [86] [49] [] [87] [50] [] [1, 2] (by decide) (by decide)
      (by decide) (by decide) (by decide) (by decide) (by decide) (by decide)
      (by decide)
    exact h⟩

/-- C8: starting from a freshly constructed decoder, any byte sequence
runs to completion without ever reaching the `raise AssertionError()`
branch, and the state field always remains one of the five values of
`range(5)`. -/
theorem no_assertion_error (bs : List Byte) :
    ∃ r : VEDirect × List (Option Frame),
      run init bs = .ok r ∧ r.1.state < 5 :=
  run_ok bs init (by decide)

/-- C9: a hex marker arriving in `IN_KEY` or `IN_VALUE` leaves the
partial key and value buffers intact (first conjunct); across the hex
segment, its closing line-feed and the next CR/LF, the next field's key
bytes are appended onto the stale partial key (and its value bytes onto
the stale partial value), so the stored field name is the concatenation
of the interrupted partial key and the new key, and (when the new key
is nonempty) the interrupted field is never stored under its own
name. -/
theorem hex_interrupt_key_concatenation (k0 st v0 : Str) (c : Nat)
    (S : Nat) (m : Frame) (body : List Byte) (k2 v : Str)
    (hS : S = IN_KEY ∨ S = IN_VALUE)
    (hbody : ∀ x ∈ body, x ≠ header2)
    (hk2 : ∀ x ∈ k2, x ≠ delimiter ∧ x ≠ hexmarker)
    (hv : ∀ x ∈ v, x ≠ header1 ∧ x ≠ hexmarker)
    (hkc : k0 ++ k2 ≠ ChecksumKey) :
    (input ⟨k0, st, v0, c, S, m⟩ hexmarker =
      .ok (⟨k0, st, v0, 0, HEX, m⟩, none)) ∧
    run ⟨k0, st, v0, c, S, m⟩
      ((hexmarker :: (body ++ [header2])) ++
        ([header1, header2] ++ ((k2 ++ [delimiter]) ++ (v ++ [header1])))) =
      .ok (⟨[], anchorUpdate st (k0 ++ k2), [],
            0 + header1 + header2 + k2.sum + delimiter + v.sum + header1,
            WAIT_HEADER, dictInsert m (k0 ++ k2) (v0 ++ v)⟩,
           List.replicate (body.length + k2.length + v.length + 6) none) ∧
    (k2 ≠ [] → k0 ∉ m.map Prod.fst →
      k0 ∉ (dictInsert m (k0 ++ k2) (v0 ++ v)).map Prod.fst) := by
  have hS' : S ≠ IN_CHECKSUM := by
    rcases hS with h | h <;> subst h <;> decide
  refine ⟨input_hex_enter k0 st v0 c m S hS', ?_, ?_⟩
  · have eH := run_hexseg body hbody k0 st v0 c S m hS'
    have eB : run ⟨k0, st, v0, 0, WAIT_HEADER, m⟩ [header1, header2] =
        .ok (⟨k0, st, v0, 0 + header1 + header2, IN_KEY, m⟩,
             [none, none]) :=
      run_cons _ _ _ _ _ _ _ (input_wait_cr k0 st v0 0 m)
        (run_cons _ _ _ _ _ _ _ (input_wait_lf k0 st v0 (0 + header1) m) rfl)
    have ekey := run_key_feed k2 hk2 k0 st v0 (0 + header1 + header2) m
    have ekey2 : run ⟨k0 ++ k2, st, v0, 0 + header1 + header2 + k2.sum,
        IN_KEY, m⟩ [delimiter] =
        .ok (⟨k0 ++ k2, anchorUpdate st (k0 ++ k2), v0,
              0 + header1 + header2 + k2.sum + delimiter, IN_VALUE, m⟩,
             [none]) :=
      run_cons _ _ _ _ _ _ _
        (input_key_tab (k0 ++ k2) st v0 (0 + header1 + header2 + k2.sum) m
          hkc) rfl
    have eval1 := run_value_feed v hv (k0 ++ k2)
      (anchorUpdate st (k0 ++ k2)) v0
      (0 + header1 + header2 + k2.sum + delimiter) m
    have eval2 : run ⟨k0 ++ k2, anchorUpdate st (k0 ++ k2), v0 ++ v,
        0 + header1 + header2 + k2.sum + delimiter + v.sum, IN_VALUE, m⟩
        [header1] =
        .ok (⟨[], anchorUpdate st (k0 ++ k2), [],
              0 + header1 + header2 + k2.sum + delimiter + v.sum + header1,
              WAIT_HEADER, dictInsert m (k0 ++ k2) (v0 ++ v)⟩, [none]) :=
      run_cons _ _ _ _ _ _ _ (input_value_cr (k0 ++ k2)
        (anchorUpdate st (k0 ++ k2)) (v0 ++ v)
        (0 + header1 + header2 + k2.sum + delimiter + v.sum) m) rfl
    have etail := run_append _ _ _ _ _ _ _ eB
      (run_append _ _ _ _ _ _ _
        (run_append _ _ _ _ _ _ _ ekey ekey2)
        (run_append _ _ _ _ _ _ _ eval1 eval2))
    have e := run_append _ _ _ _ _ _ _ eH etail
    have hrep : List.replicate (body.length + 2) (none : Option Frame) ++
        ([none, none] ++ ((List.replicate k2.length none ++ [none]) ++
          (List.replicate v.length none ++ [none]))) =
        List.replicate (body.length + k2.length + v.length + 6) none := by
      refine List.eq_replicate_iff.mpr ⟨?_, ?_⟩
      · simp
        omega
      · intro x hx
        simp [List.mem_append, List.mem_replicate] at hx
        tauto
    rw [hrep] at e
    exact e
  · intro hne hmem hcon
    rcases (mem_keys_dictInsert m (k0 ++ k2) (v0 ++ v) k0).mp hcon
      with hcase | hcase
    · have hl := congrArg List.length hcase
      rw [List.length_append] at hl
      have : k2.length = 0 := by omega
      exact hne (List.length_eq_zero.mp this)
    · exact hmem hcase

theorem hex_interrupt_key_concatenation_witness :
    ((IN_VALUE = IN_KEY ∨ IN_VALUE = IN_VALUE) ∧
      (∀ x ∈ ([120] : List Byte), x ≠ header2) ∧
      (∀ x ∈ ([80] : List Byte), x ≠ delimiter ∧ x ≠ hexmarker) ∧
      (∀ x ∈ ([49] : List Byte), x ≠ header1 ∧ x ≠ hexmarker) ∧
      ([86] : Str) ++ [80] ≠ ChecksumKey) ∧
    ((input ⟨[86], [], [52], 7, IN_VALUE, []⟩ hexmarker =
       .ok (⟨[86], [], [52], 0, HEX, []⟩, none)) ∧
     run ⟨[86], [], [52], 7, IN_VALUE, []⟩
      ((hexmarker :: (([120] : List Byte) ++ [header2])) ++
        ([header1, header2] ++
          ((([80] : Str) ++ [delimiter]) ++ (([49] : Str) ++ [header1])))) =
      .ok (⟨[], anchorUpdate [] ([86] ++ [80]), [],
            0 + header1 + header2 + ([80] : Str).sum + delimiter +
              ([49] : Str).sum + header1,
            WAIT_HEADER, dictInsert [] ([86] ++ [80]) ([52] ++ [49])⟩,
           List.replicate 9 none) ∧
     (([80] : Str) ≠ [] → ([86] : Str) ∉ ([] : Frame).map Prod.fst →
       ([86] : Str) ∉
         (dictInsert [] ([86] ++ [80]) ([52] ++ [49])).map Prod.fst)) :=
  ⟨⟨by decide, by decide, by decide, by decide, by decide⟩,
   hex_interrupt_key_concatenation [86] [] [52] 7 IN_VALUE [] [120] [80] [49]
     (by decide) (by decide) (by decide) (by decide) (by decide)⟩

/-- The byte sequence `\r\n\t\r\nChecksum\t`: a tab arrives in `IN_KEY`
with an empty key buffer and no anchor recorded. -/
def c10Bytes : List Byte := [13, 10, 9, 13, 10] ++ ChecksumKey ++ [9]

/-- C10: a tab in `IN_KEY` with empty key buffer and empty anchor passes
the anchor-equality test, so the boundary flag is set at once; the next
checksum group summing to 0 mod 256 then makes `input` return the
pending values map even though no field key ever repeated. -/
theorem empty_key_sets_boundary (s : VEDirect) (hstate : s.state = IN_KEY)
    (hkey : s.key = []) (hstart : s.start = []) :
    input s delimiter = .ok (⟨[], ALL, s.value, s.bytes_sum + delimiter,
        IN_VALUE, s.values⟩, none) ∧
    run init (c10Bytes ++ [checkByte c10Bytes]) =
      .ok (⟨[], [], [], 0, WAIT_HEADER, [([], [])]⟩,
           List.replicate 14 none ++ [some [([], [])]]) := by
  constructor
  · obtain ⟨k, st, v, c, S, m⟩ := s
    replace hstate : S = IN_KEY := hstate
    replace hkey : k = [] := hkey
    replace hstart : st = [] := hstart
    subst hstate; subst hkey; subst hstart
    have h := input_key_tab [] [] v c m (by decide)
    simpa [anchorUpdate] using h
  · rfl

theorem empty_key_sets_boundary_witness :
    ((⟨[], [], [], 2, IN_KEY, []⟩ : VEDirect).state = IN_KEY ∧
      (⟨[], [], [], 2, IN_KEY, []⟩ : VEDirect).key = [] ∧
      (⟨[], [], [], 2, IN_KEY, []⟩ : VEDirect).start = []) ∧
    (input ⟨[], [], [], 2, IN_KEY, []⟩ delimiter =
      .ok (⟨[], ALL, [], 2 + delimiter, IN_VALUE, []⟩, none) ∧
     run init (c10Bytes ++ [checkByte c10Bytes]) =
       .ok (⟨[], [], [], 0, WAIT_HEADER, [([], [])]⟩,
            List.replicate 14 none ++ [some [([], [])]])) :=
  ⟨⟨rfl, rfl, rfl⟩,
   empty_key_sets_boundary ⟨[], [], [], 2, IN_KEY, []⟩ rfl rfl rfl⟩

end VED
